import Mathlib

/-!
# Verification of the sparse labeled-tensor merge engine

This development embeds the data model and the operations of the sparse
tensor collection engine demonstrated in `tutorial-equistore.ipynb`
(Luthaf/selw-2022): label sets, data blocks with attached gradients, tensor
collections keyed by label entries, the two key-merging transformations
(`keys_to_properties`, `keys_to_samples`), block selection by partial key
constraints, persistence, and the notebook's `extract_energy_forces`
function.

The engine itself (the `equistore` library) is not part of the repository
source; the notebook only calls it.  Its operations are therefore modelled
from the specification text, as signalled in each doc comment.  The value
arrays are modelled as nested lists of rationals indexed as
`values[sample][component][property]`, where the (possibly several)
component axes of the library are flattened into a single middle axis whose
length is the product of the component label set sizes.
-/

namespace Equistore

/-- A label set: an ordered list of named variables paired with an ordered
sequence of integer-tuple entries (one entry per row it indexes). -/
structure Labels where
  names : List String
  entries : List (List Int)
deriving DecidableEq

/-- Flattened data array: `data[sample][component][property]`. -/
abbrev Data3 := List (List (List ℚ))

/-- Gradient data attached to a block: its own sample label set (whose first
variable `sample` references a row index of the owning block's samples), its
own component label sets, and a data array sharing the block's properties. -/
structure Gradient where
  samples : Labels
  components : List Labels
  data : Data3
deriving DecidableEq

/-- A block: sample labels, component labels, property labels, the value
array, and gradients keyed by parameter name. -/
structure TensorBlock where
  samples : Labels
  components : List Labels
  properties : Labels
  values : Data3
  gradients : List (String × Gradient)
deriving DecidableEq

/-- A tensor collection: a key label set plus one block per key entry. -/
structure TensorMap where
  keys : Labels
  blocks : List TensorBlock
deriving DecidableEq

/-- The error kinds of the engine. -/
inductive EngineError where
  | UnknownVariable
  | ShapeMismatch
  | NotFound
  | DuplicateKey
deriving DecidableEq

/-- Size of the flattened component axis: the product of the component
label set sizes (1 when there are no components). -/
def compSize (cs : List Labels) : Nat :=
  (cs.map (fun c => c.entries.length)).prod

/-- Well-formed label set: unique variable names, unique entries, and every
entry has one value per variable. -/
def Labels.wf (l : Labels) : Prop :=
  l.names.Nodup ∧ l.entries.Nodup ∧ ∀ e ∈ l.entries, e.length = l.names.length

/-- The value array has the given number of sample rows, flattened component
cells per row, and property columns per cell. -/
def dataWf (v : Data3) (nS nC nP : Nat) : Prop :=
  v.length = nS ∧ ∀ r ∈ v, r.length = nC ∧ ∀ cell ∈ r, cell.length = nP

/-- A gradient sample entry references a valid row of the owning block:
it is nonempty and its first (`sample`) column is a row index below the
owner's sample count. -/
def gradRefOk (ownerRows : Nat) (e : List Int) : Prop :=
  e ≠ [] ∧ 0 ≤ e.getD 0 0 ∧ e.getD 0 0 < (ownerRows : Int)

/-- Well-formed gradient relative to its owning block: well-formed label
sets, data of matching shape, first sample variable named `sample`, and
every `sample` reference valid. -/
def Gradient.wf (g : Gradient) (ownerRows nP : Nat) : Prop :=
  g.samples.wf ∧ (∀ c ∈ g.components, c.wf) ∧
    dataWf g.data g.samples.entries.length (compSize g.components) nP ∧
    g.samples.names.head? = some "sample" ∧
    ∀ e ∈ g.samples.entries, gradRefOk ownerRows e

/-- Well-formed block: well-formed label sets, value array of matching
shape, and well-formed gradients. -/
def TensorBlock.wf (b : TensorBlock) : Prop :=
  b.samples.wf ∧ (∀ c ∈ b.components, c.wf) ∧ b.properties.wf ∧
    dataWf b.values b.samples.entries.length (compSize b.components)
      b.properties.entries.length ∧
    ∀ pg ∈ b.gradients, (pg.2).wf b.samples.entries.length b.properties.entries.length

/-- Well-formed collection: well-formed keys, one block per key entry, and
well-formed blocks. -/
def TensorMap.wf (C : TensorMap) : Prop :=
  C.keys.wf ∧ C.keys.entries.length = C.blocks.length ∧ ∀ b ∈ C.blocks, b.wf

/-! ## Generic helpers -/

/-- Effectful map over a list in the `Except` monad, failing on the first
error. -/
def exceptMapM (f : α → Except ε β) : List α → Except ε (List β)
  | [] => .ok []
  | a :: l =>
    match f a with
    | .error e => .error e
    | .ok b =>
      match exceptMapM f l with
      | .error e => .error e
      | .ok bs => .ok (b :: bs)

/-- Index of the first occurrence of an entry in a list of entries
(used to re-target gradient `sample` references after a re-sort). -/
def posOf : List (List Int) → List Int → Nat
  | [], _ => 0
  | b :: t, a => if a = b then 0 else posOf t a + 1

/-- The cell of a data array at a sample row and flattened component index,
defaulting to a zero-filled property row of width `nP` out of range. -/
def cellAtD (v : Data3) (nP s c : Nat) : List ℚ :=
  match v[s]? with
  | some row =>
    match row[c]? with
    | some cell => cell
    | none => List.replicate nP 0
  | none => List.replicate nP 0

/-- Boolean lexicographic comparison of label entries, used for the
canonical ascending sample sort. -/
def lexLe : List Int → List Int → Bool
  | [], _ => true
  | _ :: _, [] => false
  | a :: as, b :: bs => if a < b then true else if b < a then false else lexLe as bs

/-- Concatenate gradient sample entries of consecutive constituent blocks,
shifting each entry's `sample` reference by the number of sample rows of
the blocks already emitted.  Each chunk is `(ownerRows, entries)`. -/
def gradConcat : Nat → List (Nat × List (List Int)) → List (List Int)
  | _, [] => []
  | off, c :: rest =>
    c.2.map (fun e =>
      match e with
      | [] => []
      | j :: tl => (j + (off : Int)) :: tl)
      ++ gradConcat (off + c.1) rest

/-- Entries of the `n`-th gradient of a block (empty when absent). -/
def gradEntriesAt (b : TensorBlock) (n : Nat) : List (List Int) :=
  match b.gradients[n]? with
  | some pg => pg.2.samples.entries
  | none => []

/-- Data of the `n`-th gradient of a block (empty when absent). -/
def gradDataAt (b : TensorBlock) (n : Nat) : Data3 :=
  match b.gradients[n]? with
  | some pg => pg.2.data
  | none => []

/-! ## The merge operations, modelled from the spec -/

/-- Modelled from the spec: re-target one gradient sample entry after the
owning block's samples were re-ordered, replacing the referenced old row
index by the position of the same sample entry in the new order. -/
def remapEntry (oldEntries newEntries : List (List Int)) (e : List Int) : List Int :=
  match e with
  | [] => []
  | j :: rest => (Int.ofNat (posOf newEntries (oldEntries.getD j.toNat []))) :: rest

/-- Modelled from the spec (step 6 of `move-key-to-properties`, shared with
`move-key-to-samples`): re-sort a block's sample rows into canonical
ascending lexicographic order over all sample columns, co-reordering the
value rows and re-targeting the gradients' `sample` references. -/
def sortBlockSamples (b : TensorBlock) : TensorBlock :=
  let pairs := b.samples.entries.zip b.values
  let sorted := pairs.insertionSort (fun p q => lexLe p.1 q.1 = true)
  let newEntries := sorted.map Prod.fst
  ⟨⟨b.samples.names, newEntries⟩, b.components, b.properties, sorted.map Prod.snd,
    b.gradients.map (fun pg =>
      (pg.1, ⟨⟨pg.2.samples.names,
                pg.2.samples.entries.map (remapEntry b.samples.entries newEntries)⟩,
              pg.2.components, pg.2.data⟩))⟩

/-- Position of a key variable among the key names. -/
def keyPos (C : TensorMap) (var : String) : Option Nat :=
  C.keys.names.findIdx? (fun n => decide (n = var))

/-- All distinct values of the key variable at position `i`, in ascending
sort order. -/
def sortedKeyValues (C : TensorMap) (i : Nat) : List Int :=
  ((C.keys.entries.map (fun e => e.getD i 0)).dedup).insertionSort (fun a b => a ≤ b)

/-- The output key entries: the distinct projections of the key entries
onto all variables except the one at position `i`, one group per distinct
projection. -/
def groupsOf (C : TensorMap) (i : Nat) : List (List Int) :=
  (C.keys.entries.map (fun e => e.eraseIdx i)).dedup

/-- The constituent blocks of a group: the key/block pairs whose key entry
projects onto the group, each paired with its value of the merged
variable. -/
def constituents (C : TensorMap) (i : Nat) (g : List Int) : List (Int × TensorBlock) :=
  ((C.keys.entries.zip C.blocks).filter
      (fun p => decide (p.1.eraseIdx i = g))).map
    (fun p => (p.1.getD i 0, p.2))

/-- Gradient signature a property-merge requires to agree across the
constituents of a group: parameter names, full gradient sample label sets
(row for row), and gradient components. -/
def gradSigP (b : TensorBlock) : List (String × Labels × List Labels) :=
  b.gradients.map (fun pg => (pg.1, pg.2.samples, pg.2.components))

/-- Gradient signature a sample-merge requires to agree across the
constituents of a group: parameter names, gradient sample variable names,
and gradient components. -/
def gradSigS (b : TensorBlock) : List (String × List String × List Labels) :=
  b.gradients.map (fun pg => (pg.1, pg.2.samples.names, pg.2.components))

/-- The property-axis slab of one merged cell contributed by the value `x`
of the merged variable: the constituent cell when a block for `x` is
present in the group, and a zero-filled slab of matching width otherwise. -/
def propSlab (cons : List (Int × TensorBlock)) (nP s c : Nat) (x : Int) : List ℚ :=
  match cons.find? (fun xb => decide (xb.1 = x)) with
  | some xb => cellAtD xb.2.values nP s c
  | none => List.replicate nP 0

/-- Like `propSlab`, for the data of the `n`-th gradient. -/
def gradPropSlab (cons : List (Int × TensorBlock)) (n nP s c : Nat) (x : Int) : List ℚ :=
  match cons.find? (fun xb => decide (xb.1 = x)) with
  | some xb => cellAtD (gradDataAt xb.2 n) nP s c
  | none => List.replicate nP 0

/-- The property-merged block of one group, before the optional sample
re-sort: the template block's samples and components, the Cartesian
property label set, and values concatenated slab-by-slab along the property
axis in ascending order of the merged variable. -/
def mergedPropBlock (var : String) (sortedVals : List Int)
    (cons : List (Int × TensorBlock)) (b0 : TensorBlock) : TensorBlock :=
  ⟨b0.samples, b0.components,
    ⟨var :: b0.properties.names,
      sortedVals.flatMap (fun x => b0.properties.entries.map (fun p => x :: p))⟩,
    (List.range b0.samples.entries.length).map (fun s =>
      (List.range (compSize b0.components)).map (fun c =>
        sortedVals.flatMap (fun x =>
          propSlab cons b0.properties.entries.length s c x))),
    (List.range b0.gradients.length).filterMap (fun n =>
      (b0.gradients[n]?).map (fun pg =>
        (pg.1,
          ⟨pg.2.samples,
            pg.2.components,
            (List.range pg.2.samples.entries.length).map (fun s =>
              (List.range (compSize pg.2.components)).map (fun c =>
                sortedVals.flatMap (fun x =>
                  gradPropSlab cons n b0.properties.entries.length s c x)))⟩)))⟩

/-- Modelled from the spec (`move-key-to-properties`, steps 2-6): merge the
constituent blocks of one group along the property axis.  All constituents
must share identical sample label sets, component label sets, property
label sets and gradient metadata, else the merge fails with
`ShapeMismatch`.  The merged property label set is the Cartesian
concatenation of the merged variable's values (ascending) with the original
property entries; the merged values concatenate one slab per value in that
order, zero-filled for values absent from the group. -/
def mergeGroupProperties (var : String) (sortedVals : List Int)
    (cons : List (Int × TensorBlock)) (sortFlag : Bool) :
    Except EngineError TensorBlock :=
  match cons with
  | [] => .error .ShapeMismatch
  | (_, b0) :: _ =>
    if _h : ∀ xb ∈ cons, xb.2.samples = b0.samples ∧ xb.2.components = b0.components ∧
        xb.2.properties = b0.properties ∧ gradSigP xb.2 = gradSigP b0 then
      .ok (if sortFlag then sortBlockSamples (mergedPropBlock var sortedVals cons b0)
           else mergedPropBlock var sortedVals cons b0)
    else .error .ShapeMismatch

/-- Modelled from the spec (`move-key-to-properties`): fold the key
variable `var` into the per-block property axis.  Fails with
`UnknownVariable` when `var` is not a key variable; partitions the key
entries into groups agreeing on all other variables; merges each group's
constituent blocks along the property axis (failing with `ShapeMismatch` on
structural disagreement); optionally re-sorts the merged sample rows.
Either the whole transformation succeeds, or an error is returned and no
partial result exists. -/
def keys_to_properties (C : TensorMap) (var : String) (sort_samples : Bool) :
    Except EngineError TensorMap :=
  match keyPos C var with
  | none => .error .UnknownVariable
  | some i =>
    match exceptMapM
        (fun g => mergeGroupProperties var (sortedKeyValues C i) (constituents C i g)
          sort_samples)
        (groupsOf C i) with
    | .error e => .error e
    | .ok bs => .ok ⟨⟨C.keys.names.eraseIdx i, groupsOf C i⟩, bs⟩

/-- The constituents of a group sorted into ascending order of the merged
variable's value: the order in which they are concatenated along the sample
axis. -/
def sortedCons (cons : List (Int × TensorBlock)) : List (Int × TensorBlock) :=
  cons.insertionSort (fun p q => p.1 ≤ q.1)

/-- The sample-merged block of one group, before the optional sample
re-sort: the merged variable prepended as an extra sample column, sample
entries and values concatenated in ascending order of the merged variable,
and gradient `sample` references shifted to the concatenated row
indices. -/
def mergedSampBlock (var : String) (cons : List (Int × TensorBlock))
    (b0 : TensorBlock) : TensorBlock :=
  ⟨⟨var :: b0.samples.names,
      (sortedCons cons).flatMap
        (fun xb => xb.2.samples.entries.map (fun r => xb.1 :: r))⟩,
    b0.components, b0.properties,
    (sortedCons cons).flatMap (fun xb => xb.2.values),
    (List.range b0.gradients.length).filterMap (fun n =>
      (b0.gradients[n]?).map (fun pg =>
        (pg.1,
          ⟨⟨pg.2.samples.names,
              gradConcat 0 ((sortedCons cons).map (fun xb =>
                (xb.2.samples.entries.length, gradEntriesAt xb.2 n)))⟩,
            pg.2.components,
            (sortedCons cons).flatMap (fun xb => gradDataAt xb.2 n)⟩)))⟩

/-- Modelled from the spec (`move-key-to-samples`): merge the constituent
blocks of one group along the sample axis, in ascending order of the merged
variable's value.  All constituents must share identical property label
sets (entries included), identical component label sets, identical sample
variable names and identical gradient metadata, else the merge fails with
`ShapeMismatch`.  The merged sample label set carries the merged variable
prepended as an extra sample column; gradient `sample` references are
shifted to the concatenated row indices. -/
def mergeGroupSamples (var : String) (cons : List (Int × TensorBlock))
    (sortFlag : Bool) : Except EngineError TensorBlock :=
  match cons with
  | [] => .error .ShapeMismatch
  | (_, b0) :: _ =>
    if _h : ∀ xb ∈ cons, xb.2.samples.names = b0.samples.names ∧
        xb.2.components = b0.components ∧ xb.2.properties = b0.properties ∧
        gradSigS xb.2 = gradSigS b0 then
      .ok (if sortFlag then sortBlockSamples (mergedSampBlock var cons b0)
           else mergedSampBlock var cons b0)
    else .error .ShapeMismatch

/-- Modelled from the spec (`move-key-to-samples`): fold the key variable
`var` into the per-block sample axis.  Groups are formed exactly as in
`keys_to_properties`; each group's constituents are concatenated along the
sample axis. -/
def keys_to_samples (C : TensorMap) (var : String) (sort_samples : Bool) :
    Except EngineError TensorMap :=
  match keyPos C var with
  | none => .error .UnknownVariable
  | some i =>
    match exceptMapM
        (fun g => mergeGroupSamples var (constituents C i g) sort_samples)
        (groupsOf C i) with
    | .error e => .error e
    | .ok bs => .ok ⟨⟨C.keys.names.eraseIdx i, groupsOf C i⟩, bs⟩

/-! ## Block selection -/

/-- The result of selecting blocks by partial key constraints: either one
single block (fully determined selection) or a collection-like view of all
matching key/block pairs. -/
inductive BlockSelection where
  | single (b : TensorBlock)
  | view (matched : List (List Int × TensorBlock))
deriving DecidableEq

/-- A key entry satisfies every constraint: for each constrained variable
name, the entry's value at that variable's position equals the required
value. -/
def matchesConstraints (names : List String) (e : List Int)
    (cs : List (String × Int)) : Prop :=
  ∀ c ∈ cs, ∀ j, names.findIdx? (fun n => decide (n = c.1)) = some j → e.getD j 0 = c.2

instance (names : List String) (e : List Int) (cs : List (String × Int)) :
    Decidable (matchesConstraints names e cs) := by
  unfold matchesConstraints
  infer_instance

/-- The key/block pairs whose key entry matches all constraints. -/
def matchingPairs (C : TensorMap) (cs : List (String × Int)) :
    List (List Int × TensorBlock) :=
  (C.keys.entries.zip C.blocks).filter
    (fun p => decide (matchesConstraints C.keys.names p.1 cs))

/-- The constraint set covers every key variable (a fully-specified
selection). -/
def coversAllKeys (C : TensorMap) (cs : List (String × Int)) : Prop :=
  ∀ n ∈ C.keys.names, ∃ c ∈ cs, c.1 = n

instance (C : TensorMap) (cs : List (String × Int)) :
    Decidable (coversAllKeys C cs) := by
  unfold coversAllKeys
  infer_instance

/-- Modelled from the spec (`select-block`): return every block whose key
entry matches on all constrained variables; when the constraints cover
every key variable and match at most one entry, return that single block or
fail with `NotFound`; otherwise return the matching set as a
collection-like view.  Constraint names absent from the key variables fail
with `UnknownVariable`. -/
def selectBlock (C : TensorMap) (cs : List (String × Int)) :
    Except EngineError BlockSelection :=
  if _h : ∀ c ∈ cs, c.1 ∈ C.keys.names then
    if _hfull : coversAllKeys C cs then
      match matchingPairs C cs with
      | [] => .error .NotFound
      | [p] => .ok (.single p.2)
      | p :: q :: rest => .ok (.view (p :: q :: rest))
    else .ok (.view (matchingPairs C cs))
  else .error .UnknownVariable

/-- The blocks contained in a selection result. -/
def selectionBlocks : BlockSelection → List TensorBlock
  | .single b => [b]
  | .view m => m.map (fun p => p.2)

/-- Applying a merge in place: the collection is replaced by the merge
result when the transformation succeeds and left untouched when it fails
(no partial-success mode). -/
def applyKeysToProperties (C : TensorMap) (var : String) (fl : Bool) : TensorMap :=
  match keys_to_properties C var fl with
  | .ok C2 => C2
  | .error _ => C

/-- Applying `keys_to_samples` in place, leaving the collection untouched
on failure. -/
def applyKeysToSamples (C : TensorMap) (var : String) (fl : Bool) : TensorMap :=
  match keys_to_samples C var fl with
  | .ok C2 => C2
  | .error _ => C

/-! ## Persistence -/

/-- Split a flat list into consecutive chunks of `k` elements (meaningful
for `k > 0`). -/
def chunk (k : Nat) : List α → List (List α)
  | [] => []
  | a :: l => (a :: l.take (k - 1)) :: chunk k (l.drop (k - 1))
termination_by l => l.length
decreasing_by
  simp only [List.length_drop, List.length_cons]
  omega

/-- Rebuild a list of `count` rows of `per` elements from its
concatenation. -/
def unflatten (count per : Nat) (flat : List α) : List (List α) :=
  if per = 0 then List.replicate count [] else chunk per flat

/-- Modelled from the spec: the serialized form of a label set in the
NPZ-based persistence format, storing the variable names, the entry count
and the row-major concatenation of the entries. -/
structure SavedLabels where
  names : List String
  count : Nat
  packed : List Int
deriving DecidableEq

/-- Modelled from the spec: serialized gradient (label sets plus the
flattened data array). -/
structure SavedGradient where
  samples : SavedLabels
  components : List SavedLabels
  dataFlat : List ℚ
deriving DecidableEq

/-- Modelled from the spec: serialized block. -/
structure SavedBlock where
  samples : SavedLabels
  components : List SavedLabels
  properties : SavedLabels
  valuesFlat : List ℚ
  gradients : List (String × SavedGradient)
deriving DecidableEq

/-- Modelled from the spec: serialized collection. -/
structure SavedFile where
  keys : SavedLabels
  blocks : List SavedBlock
deriving DecidableEq

/-- Serialize a label set. -/
def saveLabels (l : Labels) : SavedLabels :=
  ⟨l.names, l.entries.length, l.entries.flatten⟩

/-- Deserialize a label set. -/
def loadLabels (s : SavedLabels) : Labels :=
  ⟨s.names, unflatten s.count s.names.length s.packed⟩

/-- Flatten a data array row-major. -/
def flattenData (v : Data3) : List ℚ :=
  (v.flatten).flatten

/-- Rebuild a data array of shape `(nS, nC, nP)` from its row-major
flattening. -/
def unflattenData (nS nC nP : Nat) (flat : List ℚ) : Data3 :=
  unflatten nS nC (unflatten (nS * nC) nP flat)

/-- Serialize a gradient. -/
def saveGradient (g : Gradient) : SavedGradient :=
  ⟨saveLabels g.samples, g.components.map saveLabels, flattenData g.data⟩

/-- Deserialize a gradient; the property count comes from the owning
block. -/
def loadGradient (nP : Nat) (s : SavedGradient) : Gradient :=
  let samples := loadLabels s.samples
  let components := s.components.map loadLabels
  ⟨samples, components,
    unflattenData samples.entries.length (compSize components) nP s.dataFlat⟩

/-- Serialize a block. -/
def saveBlock (b : TensorBlock) : SavedBlock :=
  ⟨saveLabels b.samples, b.components.map saveLabels, saveLabels b.properties,
    flattenData b.values, b.gradients.map (fun pg => (pg.1, saveGradient pg.2))⟩

/-- Deserialize a block. -/
def loadBlock (s : SavedBlock) : TensorBlock :=
  let samples := loadLabels s.samples
  let components := s.components.map loadLabels
  let properties := loadLabels s.properties
  ⟨samples, components, properties,
    unflattenData samples.entries.length (compSize components)
      properties.entries.length s.valuesFlat,
    s.gradients.map (fun pg => (pg.1, loadGradient properties.entries.length pg.2))⟩

/-- Modelled from the spec: `equistore.io.save`, an opaque lossless
serialization of a collection. -/
def save (C : TensorMap) : SavedFile :=
  ⟨saveLabels C.keys, C.blocks.map saveBlock⟩

/-- Modelled from the spec: `equistore.io.load`, restoring a collection
from its serialized form. -/
def load (s : SavedFile) : TensorMap :=
  ⟨loadLabels s.keys, s.blocks.map loadBlock⟩

/-! ## The notebook's `extract_energy_forces` -/

/-- An input structure for `extract_energy_forces`: its total energy and
the force vector (3 components) acting on each atom. -/
structure Structure where
  energy : ℚ
  forces : List (List ℚ)
deriving DecidableEq

/-- `Labels.single()`: the one-entry label set used as the key of a
single-block collection. -/
def Labels.single : Labels :=
  ⟨["_"], [[0]]⟩

/-- Embedded from `tutorial-equistore.ipynb`: build a single-block
`TensorMap` holding one energy sample per structure, with a `positions`
gradient whose data is the negated per-atom forces reshaped to one property
column and whose sample labels are `[structure_i, structure_i, atom_i]`. -/
def extract_energy_forces (structures : List Structure) : TensorMap :=
  let block : TensorBlock :=
    ⟨⟨["structure"], (List.range structures.length).map (fun i => [Int.ofNat i])⟩,
      [],
      ⟨["energy"], [[0]]⟩,
      structures.map (fun st => [[st.energy]]),
      [("positions",
        ⟨⟨["sample", "structure", "atom"],
            structures.enum.flatMap (fun si =>
              (List.range si.2.forces.length).map (fun ai =>
                [Int.ofNat si.1, Int.ofNat si.1, Int.ofNat ai]))⟩,
          [⟨["direction"], [[0], [1], [2]]⟩],
          structures.flatMap (fun st => st.forces.map (fun f => f.map (fun v => [-v])))⟩)]⟩
  ⟨Labels.single, [block]⟩

/-! ## General lemmas -/

theorem exceptMapM_ok_iff {f : α → Except ε β} {l : List α} {ys : List β} :
    exceptMapM f l = .ok ys ↔ List.Forall₂ (fun a b => f a = .ok b) l ys := by
  induction l generalizing ys with
  | nil =>
    constructor
    · intro h
      cases h
      exact List.Forall₂.nil
    · intro h
      cases h
      rfl
  | cons a t ih =>
    constructor
    · intro h
      unfold exceptMapM at h
      cases ha : f a with
      | error e => rw [ha] at h; cases h
      | ok b =>
        rw [ha] at h
        cases ht : exceptMapM f t with
        | error e => rw [ht] at h; cases h
        | ok bs =>
          rw [ht] at h
          cases h
          exact List.Forall₂.cons ha (ih.mp ht)
    · intro h
      cases h with
      | cons hab ht =>
        unfold exceptMapM
        rw [hab, ih.mpr ht]

theorem forall₂_right_mem {R : α → β → Prop} :
    ∀ {l : List α} {ys : List β}, List.Forall₂ R l ys → ∀ {y : β}, y ∈ ys →
      ∃ a ∈ l, R a y := by
  intro l ys h
  induction h with
  | nil => intro y hy; cases hy
  | cons hab _ ih =>
    intro y hy
    rcases List.mem_cons.mp hy with rfl | hy2
    · exact ⟨_, List.mem_cons_self _ _, hab⟩
    · obtain ⟨a, ha, hfa⟩ := ih hy2
      exact ⟨a, List.mem_cons_of_mem _ ha, hfa⟩

theorem forall₂_left_mem {R : α → β → Prop} :
    ∀ {l : List α} {ys : List β}, List.Forall₂ R l ys → ∀ {a : α}, a ∈ l →
      ∃ y ∈ ys, R a y := by
  intro l ys h
  induction h with
  | nil => intro a ha; cases ha
  | cons hab _ ih =>
    intro a ha
    rcases List.mem_cons.mp ha with rfl | ha2
    · exact ⟨_, List.mem_cons_self _ _, hab⟩
    · obtain ⟨y, hy, hfa⟩ := ih ha2
      exact ⟨y, List.mem_cons_of_mem _ hy, hfa⟩

theorem exceptMapM_mem_ok {f : α → Except ε β} {l : List α} {ys : List β}
    (h : exceptMapM f l = .ok ys) {y : β} (hy : y ∈ ys) :
    ∃ a ∈ l, f a = .ok y :=
  forall₂_right_mem (exceptMapM_ok_iff.mp h) hy

theorem exceptMapM_ok_of_mem {f : α → Except ε β} {l : List α} {ys : List β}
    (h : exceptMapM f l = .ok ys) {a : α} (ha : a ∈ l) :
    ∃ y ∈ ys, f a = .ok y :=
  forall₂_left_mem (exceptMapM_ok_iff.mp h) ha

theorem exceptMapM_error_of_mem {f : α → Except ε β} {l : List α} {a : α}
    (ha : a ∈ l) {c : ε} (hfa : f a = .error c)
    (huniq : ∀ a2 e, f a2 = .error e → e = c) :
    exceptMapM f l = .error c := by
  induction l with
  | nil => cases ha
  | cons b t ih =>
    unfold exceptMapM
    rcases List.mem_cons.mp ha with rfl | ha2
    · rw [hfa]
    · cases hb : f b with
      | error e => rw [huniq b e hb]
      | ok y => rw [ih ha2]

theorem posOf_getElem? {a : List Int} :
    ∀ {l : List (List Int)}, a ∈ l → l[posOf l a]? = some a := by
  intro l
  induction l with
  | nil => intro h; cases h
  | cons b t ih =>
    intro h
    unfold posOf
    by_cases hab : a = b
    · simp [hab]
    · rcases List.mem_cons.mp h with rfl | h2
      · exact absurd rfl hab
      · simpa [hab] using ih h2

theorem chunk_flatten {k : Nat} (hk : 0 < k) :
    ∀ (L : List (List α)), (∀ r ∈ L, r.length = k) → chunk k L.flatten = L := by
  intro L
  induction L with
  | nil => intro _; simp [chunk]
  | cons r t ih =>
    intro hlen
    have hr : r.length = k := hlen r (List.mem_cons_self _ _)
    cases r with
    | nil =>
      simp only [List.length_nil] at hr
      omega
    | cons a r2 =>
      have hr2 : r2.length = k - 1 := by
        simp only [List.length_cons] at hr
        omega
      show chunk k ((a :: r2) ++ t.flatten) = (a :: r2) :: t
      rw [List.cons_append, chunk]
      have htake : (r2 ++ t.flatten).take (k - 1) = r2 := by
        rw [← hr2, List.take_left]
      have hdrop : (r2 ++ t.flatten).drop (k - 1) = t.flatten := by
        rw [← hr2, List.drop_left]
      rw [htake, hdrop, ih (fun r hrm => hlen r (List.mem_cons_of_mem _ hrm))]

theorem replicate_nil_of_all_nil :
    ∀ (L : List (List α)), (∀ r ∈ L, r.length = 0) →
      List.replicate L.length ([] : List α) = L := by
  intro L
  induction L with
  | nil => intro _; rfl
  | cons r t ih =>
    intro h
    have hr : r = [] := List.eq_nil_of_length_eq_zero (h r (List.mem_cons_self _ _))
    simp only [List.length_cons, List.replicate_succ]
    rw [hr, ih (fun r2 hr2 => h r2 (List.mem_cons_of_mem _ hr2))]

theorem unflatten_flatten (L : List (List α)) (per : Nat)
    (h : ∀ r ∈ L, r.length = per) : unflatten L.length per L.flatten = L := by
  unfold unflatten
  by_cases hper : per = 0
  · subst hper
    rw [if_pos rfl]
    exact replicate_nil_of_all_nil L h
  · rw [if_neg hper]
    exact chunk_flatten (Nat.pos_of_ne_zero hper) L h

/-! ## Engine-level lemmas -/

theorem keyPos_some_getElem {C : TensorMap} {var : String} {i : Nat}
    (h : keyPos C var = some i) : C.keys.names[i]? = some var := by
  unfold keyPos at h
  obtain ⟨hlt, hidx⟩ := List.findIdx?_eq_some_iff_findIdx_eq.mp h
  have hp := @List.findIdx_getElem _ (fun n => decide (n = var)) C.keys.names
    (by rw [hidx]; exact hlt)
  rw [List.getElem?_eq_getElem hlt]
  have : C.keys.names[C.keys.names.findIdx fun n => decide (n = var)] =
      C.keys.names[i] := by
    congr 1
  rw [this] at hp
  exact congrArg some (of_decide_eq_true hp)

theorem keyPos_none_iff {C : TensorMap} {var : String} :
    keyPos C var = none ↔ var ∉ C.keys.names := by
  unfold keyPos
  rw [List.findIdx?_eq_none_iff]
  constructor
  · intro h hmem
    have := h var hmem
    simp at this
  · intro h x hx
    simp only [decide_eq_false_iff_not]
    intro hxv
    exact h (hxv ▸ hx)

theorem nodup_not_mem_eraseIdx {names : List String} {i : Nat} {var : String}
    (hnd : names.Nodup) (hi : names[i]? = some var) :
    var ∉ names.eraseIdx i := by
  intro hmem
  obtain ⟨j, hji, hj⟩ := List.mem_eraseIdx_iff_getElem?.mp hmem
  obtain ⟨hjlt, hjv⟩ := List.getElem?_eq_some_iff.mp hj
  obtain ⟨hilt, hiv⟩ := List.getElem?_eq_some_iff.mp hi
  exact hji (List.Nodup.getElem_inj_iff hnd |>.mp (hjv.trans hiv.symm))

theorem sortedKeyValues_sorted (C : TensorMap) (i : Nat) :
    List.Sorted (fun a b => a ≤ b) (sortedKeyValues C i) :=
  List.sorted_insertionSort _ _

theorem sortedKeyValues_nodup (C : TensorMap) (i : Nat) :
    (sortedKeyValues C i).Nodup :=
  (List.perm_insertionSort _ _).nodup_iff.mpr (List.nodup_dedup _)

theorem mem_sortedKeyValues {C : TensorMap} {i : Nat} {x : Int} :
    x ∈ sortedKeyValues C i ↔ ∃ e ∈ C.keys.entries, e.getD i 0 = x := by
  unfold sortedKeyValues
  rw [(List.perm_insertionSort _ _).mem_iff, List.mem_dedup, List.mem_map]

theorem groupsOf_nodup (C : TensorMap) (i : Nat) : (groupsOf C i).Nodup :=
  List.nodup_dedup _

theorem mem_groupsOf {C : TensorMap} {i : Nat} {g : List Int} :
    g ∈ groupsOf C i ↔ ∃ e ∈ C.keys.entries, e.eraseIdx i = g := by
  unfold groupsOf
  rw [List.mem_dedup, List.mem_map]

theorem mem_constituents {C : TensorMap} {i : Nat} {g : List Int}
    {xb : Int × TensorBlock} :
    xb ∈ constituents C i g ↔
      ∃ p ∈ C.keys.entries.zip C.blocks,
        p.1.eraseIdx i = g ∧ xb = (p.1.getD i 0, p.2) := by
  unfold constituents
  rw [List.mem_map]
  constructor
  · rintro ⟨p, hp, rfl⟩
    rw [List.mem_filter] at hp
    exact ⟨p, hp.1, of_decide_eq_true hp.2, rfl⟩
  · rintro ⟨p, hp, hg, rfl⟩
    exact ⟨p, List.mem_filter.mpr ⟨hp, decide_eq_true hg⟩, rfl⟩

theorem mergeGroupProperties_error {var : String} {sv : List Int}
    {cons : List (Int × TensorBlock)} {fl : Bool} {err : EngineError}
    (h : mergeGroupProperties var sv cons fl = .error err) :
    err = .ShapeMismatch := by
  unfold mergeGroupProperties at h
  match cons with
  | [] => cases h; rfl
  | (x0, b0) :: rest =>
    dsimp only at h
    split at h
    · cases h
    · cases h; rfl

theorem mergeGroupSamples_error {var : String}
    {cons : List (Int × TensorBlock)} {fl : Bool} {err : EngineError}
    (h : mergeGroupSamples var cons fl = .error err) :
    err = .ShapeMismatch := by
  unfold mergeGroupSamples at h
  match cons with
  | [] => cases h; rfl
  | (x0, b0) :: rest =>
    dsimp only at h
    split at h
    · cases h
    · cases h; rfl

theorem mergeGroupProperties_ok {var : String} {sv : List Int}
    {cons : List (Int × TensorBlock)} {fl : Bool} {b2 : TensorBlock}
    (h : mergeGroupProperties var sv cons fl = .ok b2) :
    ∃ x0 b0 rest, cons = (x0, b0) :: rest ∧
      (∀ xb ∈ cons, xb.2.samples = b0.samples ∧ xb.2.components = b0.components ∧
        xb.2.properties = b0.properties ∧ gradSigP xb.2 = gradSigP b0) ∧
      b2 = (if fl then sortBlockSamples (mergedPropBlock var sv cons b0)
            else mergedPropBlock var sv cons b0) := by
  unfold mergeGroupProperties at h
  match cons with
  | [] => cases h
  | (x0, b0) :: rest =>
    dsimp only at h
    split at h
    · cases h
      exact ⟨x0, b0, rest, rfl, by assumption, rfl⟩
    · cases h

theorem mergeGroupSamples_ok {var : String}
    {cons : List (Int × TensorBlock)} {fl : Bool} {b2 : TensorBlock}
    (h : mergeGroupSamples var cons fl = .ok b2) :
    ∃ x0 b0 rest, cons = (x0, b0) :: rest ∧
      (∀ xb ∈ cons, xb.2.samples.names = b0.samples.names ∧
        xb.2.components = b0.components ∧ xb.2.properties = b0.properties ∧
        gradSigS xb.2 = gradSigS b0) ∧
      b2 = (if fl then sortBlockSamples (mergedSampBlock var cons b0)
            else mergedSampBlock var cons b0) := by
  unfold mergeGroupSamples at h
  match cons with
  | [] => cases h
  | (x0, b0) :: rest =>
    dsimp only at h
    split at h
    · cases h
      exact ⟨x0, b0, rest, rfl, by assumption, rfl⟩
    · cases h

theorem keys_to_properties_ok {C : TensorMap} {var : String} {fl : Bool}
    {C2 : TensorMap} (h : keys_to_properties C var fl = .ok C2) :
    ∃ i, keyPos C var = some i ∧
      C2.keys = ⟨C.keys.names.eraseIdx i, groupsOf C i⟩ ∧
      exceptMapM
        (fun g => mergeGroupProperties var (sortedKeyValues C i)
          (constituents C i g) fl)
        (groupsOf C i) = .ok C2.blocks := by
  unfold keys_to_properties at h
  cases hkp : keyPos C var with
  | none => rw [hkp] at h; cases h
  | some i =>
    rw [hkp] at h
    dsimp only at h
    cases hm : exceptMapM
        (fun g => mergeGroupProperties var (sortedKeyValues C i)
          (constituents C i g) fl)
        (groupsOf C i) with
    | error e =>
      rw [hm] at h
      cases h
    | ok bs =>
      rw [hm] at h
      cases h
      exact ⟨i, rfl, rfl, hm⟩

theorem keys_to_samples_ok {C : TensorMap} {var : String} {fl : Bool}
    {C2 : TensorMap} (h : keys_to_samples C var fl = .ok C2) :
    ∃ i, keyPos C var = some i ∧
      C2.keys = ⟨C.keys.names.eraseIdx i, groupsOf C i⟩ ∧
      exceptMapM
        (fun g => mergeGroupSamples var (constituents C i g) fl)
        (groupsOf C i) = .ok C2.blocks := by
  unfold keys_to_samples at h
  cases hkp : keyPos C var with
  | none => rw [hkp] at h; cases h
  | some i =>
    rw [hkp] at h
    dsimp only at h
    cases hm : exceptMapM
        (fun g => mergeGroupSamples var (constituents C i g) fl)
        (groupsOf C i) with
    | error e =>
      rw [hm] at h
      cases h
    | ok bs =>
      rw [hm] at h
      cases h
      exact ⟨i, rfl, rfl, hm⟩

/-! ## Concrete example collections for witnesses -/

/-- A one-property, one-sample-variable block with constant value `v` and
the given sample rows. -/
def exBlock (v : ℚ) (rows : List Int) : TensorBlock :=
  ⟨⟨["s"], rows.map (fun r => [r])⟩, [], ⟨["p"], [[0]]⟩,
    rows.map (fun _ => [[v]]), []⟩

/-- A collection with key variables `l` and `n`: blocks for
`(l,n) ∈ {(0,1),(0,2),(1,1)}`, the combination `(1,2)` being absent. -/
def exC1 : TensorMap :=
  ⟨⟨["l", "n"], [[0, 1], [0, 2], [1, 1]]⟩,
    [exBlock 1 [10, 11], exBlock 2 [10, 11], exBlock 3 [20]]⟩

/-- Like `exC1` but the two blocks of the `l = 0` group disagree on their
sample entries. -/
def exC2 : TensorMap :=
  ⟨⟨["l", "n"], [[0, 1], [0, 2], [1, 1]]⟩,
    [exBlock 1 [10, 11], exBlock 2 [10, 12], exBlock 3 [20]]⟩

/-! ## Claim theorems -/

/-- Claim C2: after `keys_to_properties`, the key label set contains
exactly the distinct projections of the original key entries onto all key
variables except the merged one, each appearing exactly once, with the
variable order being the original order minus the merged variable. -/
theorem C2_keys_are_distinct_projections (C : TensorMap) (var : String)
    (fl : Bool) (i : Nat) (hi : keyPos C var = some i) (D : TensorMap)
    (h : keys_to_properties C var fl = .ok D) :
    D.keys.names = C.keys.names.eraseIdx i ∧
    D.keys.entries.Nodup ∧
    ∀ t, t ∈ D.keys.entries ↔ ∃ e ∈ C.keys.entries, e.eraseIdx i = t := by
  obtain ⟨i2, hi2, hkeys, _⟩ := keys_to_properties_ok h
  rw [hi] at hi2
  injection hi2 with hii
  subst hii
  rw [hkeys]
  exact ⟨rfl, groupsOf_nodup C i, fun t => mem_groupsOf⟩

/-- Witness for C2 at a concrete collection. -/
theorem C2_witness :
    (applyKeysToProperties exC1 "n" false).keys.names =
      exC1.keys.names.eraseIdx 1 ∧
    (applyKeysToProperties exC1 "n" false).keys.entries.Nodup := by
  have h : keys_to_properties exC1 "n" false =
      .ok (applyKeysToProperties exC1 "n" false) := by rfl
  have := C2_keys_are_distinct_projections exC1 "n" false 1 (by rfl) _ h
  exact ⟨this.1, this.2.1⟩

/-- Claim C1: `keys_to_properties` builds each merged block's property
label set as the Cartesian concatenation of the merged variable's values
(in ascending sort order, without duplicates, ranging over exactly the
values present in the keys) with the original property entries, the new
property variable list being the merged variable followed by the original
property variables; the values are concatenated along the property axis in
that same ascending order, one slab per value, the slab being zero-filled
whenever the group has no block for that value. -/
theorem C1_cartesian_property_merge (C : TensorMap) (var : String) (i : Nat)
    (hi : keyPos C var = some i) (D : TensorMap)
    (h : keys_to_properties C var false = .ok D) :
    List.Sorted (fun a b => a ≤ b) (sortedKeyValues C i) ∧
    (sortedKeyValues C i).Nodup ∧
    (∀ x, x ∈ sortedKeyValues C i ↔ ∃ e ∈ C.keys.entries, e.getD i 0 = x) ∧
    ∀ b2 ∈ D.blocks, ∃ g ∈ groupsOf C i, ∃ x0 b0 rest,
      constituents C i g = (x0, b0) :: rest ∧
      b2.properties.names = var :: b0.properties.names ∧
      b2.properties.entries =
        (sortedKeyValues C i).flatMap
          (fun x => b0.properties.entries.map (fun p => x :: p)) ∧
      b2.values =
        (List.range b0.samples.entries.length).map (fun s =>
          (List.range (compSize b0.components)).map (fun c =>
            (sortedKeyValues C i).flatMap (fun x =>
              propSlab (constituents C i g) b0.properties.entries.length s c x))) ∧
      (∀ x s c,
        (constituents C i g).find? (fun xb => decide (xb.1 = x)) = none →
        propSlab (constituents C i g) b0.properties.entries.length s c x =
          List.replicate b0.properties.entries.length 0) := by
  obtain ⟨i2, hi2, _, hblocks⟩ := keys_to_properties_ok h
  rw [hi] at hi2
  injection hi2 with hii
  subst hii
  refine ⟨sortedKeyValues_sorted C i, sortedKeyValues_nodup C i,
    fun x => mem_sortedKeyValues, ?_⟩
  intro b2 hb2
  obtain ⟨g, hg, hok⟩ := exceptMapM_mem_ok hblocks hb2
  obtain ⟨x0, b0, rest, hcons, _, hb⟩ := mergeGroupProperties_ok hok
  refine ⟨g, hg, x0, b0, rest, hcons, ?_⟩
  rw [hb]
  refine ⟨rfl, rfl, rfl, ?_⟩
  intro x s c hnone
  unfold propSlab
  rw [hnone]

/-- Witness for C1 at a concrete collection. -/
theorem C1_witness :
    List.Sorted (fun a b => a ≤ b) (sortedKeyValues exC1 1) ∧
    (sortedKeyValues exC1 1).Nodup := by
  have h : keys_to_properties exC1 "n" false =
      .ok (applyKeysToProperties exC1 "n" false) := by rfl
  have := C1_cartesian_property_merge exC1 "n" 1 (by rfl) _ h
  exact ⟨this.1, this.2.1⟩

/-- Claim C7: a property-merge of a group is valid only when all
constituent blocks share exactly the same sample label sets and identical
component label sets; when the constituents' sample entries differ, the
operation fails with `ShapeMismatch` instead of applying any union or
zero-fill policy on samples. -/
theorem C7_property_merge_requires_identical_samples (C : TensorMap)
    (var : String) (fl : Bool) (i : Nat) (hi : keyPos C var = some i) :
    (∀ D, keys_to_properties C var fl = .ok D →
      ∀ g ∈ groupsOf C i, ∀ xb1 ∈ constituents C i g,
        ∀ xb2 ∈ constituents C i g,
        xb1.2.samples = xb2.2.samples ∧ xb1.2.components = xb2.2.components) ∧
    ((∃ g ∈ groupsOf C i, ∃ xb1 ∈ constituents C i g,
        ∃ xb2 ∈ constituents C i g,
        xb1.2.samples.entries ≠ xb2.2.samples.entries) →
      keys_to_properties C var fl = .error .ShapeMismatch) := by
  constructor
  · intro D hD g hg xb1 h1 xb2 h2
    obtain ⟨i2, hi2, _, hblocks⟩ := keys_to_properties_ok hD
    rw [hi] at hi2
    injection hi2 with hii
    subst hii
    obtain ⟨b2, _, hok⟩ := exceptMapM_ok_of_mem hblocks hg
    obtain ⟨x0, b0, rest, _, hchecks, _⟩ := mergeGroupProperties_ok hok
    obtain ⟨hs1, hc1, _, _⟩ := hchecks xb1 h1
    obtain ⟨hs2, hc2, _, _⟩ := hchecks xb2 h2
    exact ⟨hs1.trans hs2.symm, hc1.trans hc2.symm⟩
  · rintro ⟨g, hg, xb1, h1, xb2, h2, hne⟩
    have hmerge : mergeGroupProperties var (sortedKeyValues C i)
        (constituents C i g) fl = .error .ShapeMismatch := by
      cases hc : constituents C i g with
      | nil => rw [hc] at h1; cases h1
      | cons c rest =>
        obtain ⟨x0, b0⟩ := c
        rw [hc] at h1 h2
        unfold mergeGroupProperties
        dsimp only
        rw [dif_neg]
        intro hcond
        obtain ⟨hs1, _, _, _⟩ := hcond xb1 h1
        obtain ⟨hs2, _, _, _⟩ := hcond xb2 h2
        exact hne (congrArg Labels.entries (hs1.trans hs2.symm))
    unfold keys_to_properties
    rw [hi]
    dsimp only
    rw [exceptMapM_error_of_mem hg hmerge
      (fun a2 e he => mergeGroupProperties_error he)]

/-- Witness for C7: merging a collection whose `l = 0` group holds blocks
with different sample entries fails with `ShapeMismatch`. -/
theorem C7_witness :
    keys_to_properties exC2 "n" false = .error .ShapeMismatch := by
  refine (C7_property_merge_requires_identical_samples exC2 "n" false 1
    (by rfl)).2 ⟨[0], by decide, (1, exBlock 1 [10, 11]), by decide,
      (2, exBlock 2 [10, 12]), by decide, by decide⟩

/-- Claim C3: `keys_to_samples` produces merged blocks whose sample label
set carries the merged variable as an extra sample column prepended to the
original sample variables, whose sample entries and value arrays are the
constituents' rows concatenated along the first (sample) axis in ascending
order of the merged variable, and it fails with `ShapeMismatch` when the
constituent blocks of a group do not have identical (not merely
same-named) property label sets. -/
theorem C3_sample_merge_structure (C : TensorMap) (var : String) (i : Nat)
    (hi : keyPos C var = some i) :
    (∀ D, keys_to_samples C var false = .ok D →
      ∀ b2 ∈ D.blocks, ∃ g ∈ groupsOf C i, ∃ x0 b0 rest,
        constituents C i g = (x0, b0) :: rest ∧
        b2.samples.names = var :: b0.samples.names ∧
        b2.samples.entries = (sortedCons (constituents C i g)).flatMap
          (fun xb => xb.2.samples.entries.map (fun r => xb.1 :: r)) ∧
        b2.values =
          (sortedCons (constituents C i g)).flatMap (fun xb => xb.2.values)) ∧
    ((∃ g ∈ groupsOf C i, ∃ xb1 ∈ constituents C i g,
        ∃ xb2 ∈ constituents C i g, xb1.2.properties ≠ xb2.2.properties) →
      ∀ fl, keys_to_samples C var fl = .error .ShapeMismatch) := by
  constructor
  · intro D hD b2 hb2
    obtain ⟨i2, hi2, _, hblocks⟩ := keys_to_samples_ok hD
    rw [hi] at hi2
    injection hi2 with hii
    subst hii
    obtain ⟨g, hg, hok⟩ := exceptMapM_mem_ok hblocks hb2
    obtain ⟨x0, b0, rest, hcons, _, hb⟩ := mergeGroupSamples_ok hok
    refine ⟨g, hg, x0, b0, rest, hcons, ?_⟩
    rw [hb]
    exact ⟨rfl, rfl, rfl⟩
  · rintro ⟨g, hg, xb1, h1, xb2, h2, hne⟩
    intro fl
    have hmerge : mergeGroupSamples var (constituents C i g) fl =
        .error .ShapeMismatch := by
      cases hc : constituents C i g with
      | nil => rw [hc] at h1; cases h1
      | cons c rest =>
        obtain ⟨x0, b0⟩ := c
        rw [hc] at h1 h2
        unfold mergeGroupSamples
        dsimp only
        rw [dif_neg]
        intro hcond
        obtain ⟨_, _, hp1, _⟩ := hcond xb1 h1
        obtain ⟨_, _, hp2, _⟩ := hcond xb2 h2
        exact hne (hp1.trans hp2.symm)
    unfold keys_to_samples
    rw [hi]
    dsimp only
    rw [exceptMapM_error_of_mem hg hmerge
      (fun a2 e he => mergeGroupSamples_error he)]

/-- A block with property entry `[q]`, constant value `v` and the given
sample rows. -/
def exBlockQ (v : ℚ) (q : Int) (rows : List Int) : TensorBlock :=
  ⟨⟨["s"], rows.map (fun r => [r])⟩, [], ⟨["p"], [[q]]⟩,
    rows.map (fun _ => [[v]]), []⟩

/-- A collection whose `l = 0` group holds blocks with same-named but
different property label sets. -/
def exC3 : TensorMap :=
  ⟨⟨["l", "n"], [[0, 1], [0, 2]]⟩,
    [exBlockQ 1 0 [10], exBlockQ 2 5 [10]]⟩

/-- Witness for C3: sample-merging blocks with same-named but different
property entries fails with `ShapeMismatch`. -/
theorem C3_witness :
    keys_to_samples exC3 "n" false = .error .ShapeMismatch := by
  refine (C3_sample_merge_structure exC3 "n" 1 (by rfl)).2
    ⟨[0], by decide, (1, exBlockQ 1 0 [10]), by decide,
      (2, exBlockQ 2 5 [10]), by decide, by decide⟩ false

theorem keys_to_properties_not_mem {C : TensorMap} {var : String} {fl : Bool}
    (hv : var ∉ C.keys.names) :
    keys_to_properties C var fl = .error .UnknownVariable := by
  unfold keys_to_properties
  rw [keyPos_none_iff.mpr hv]

theorem keys_to_samples_not_mem {C : TensorMap} {var : String} {fl : Bool}
    (hv : var ∉ C.keys.names) :
    keys_to_samples C var fl = .error .UnknownVariable := by
  unfold keys_to_samples
  rw [keyPos_none_iff.mpr hv]

/-- Claim C6: a merge with a variable not among the key variable names
fails with `UnknownVariable`; in particular, after a successful merge the
variable is gone from the keys, so applying the same merge again fails with
`UnknownVariable`; and whenever a merge fails, the in-place application
leaves the collection untouched (all-or-nothing, no partial success). -/
theorem C6_unknown_variable_and_atomicity (C : TensorMap) (var : String)
    (fl fl2 : Bool) (hnd : C.keys.names.Nodup) :
    (var ∉ C.keys.names →
      keys_to_properties C var fl = .error .UnknownVariable ∧
      keys_to_samples C var fl = .error .UnknownVariable) ∧
    (∀ D, keys_to_properties C var fl = .ok D →
      var ∉ D.keys.names ∧
      keys_to_properties D var fl2 = .error .UnknownVariable ∧
      keys_to_samples D var fl2 = .error .UnknownVariable) ∧
    (∀ D, keys_to_samples C var fl = .ok D →
      var ∉ D.keys.names ∧
      keys_to_samples D var fl2 = .error .UnknownVariable ∧
      keys_to_properties D var fl2 = .error .UnknownVariable) ∧
    (∀ err, keys_to_properties C var fl = .error err →
      applyKeysToProperties C var fl = C) ∧
    (∀ err, keys_to_samples C var fl = .error err →
      applyKeysToSamples C var fl = C) := by
  refine ⟨fun hv => ⟨keys_to_properties_not_mem hv, keys_to_samples_not_mem hv⟩,
    ?_, ?_, ?_, ?_⟩
  · intro D hD
    obtain ⟨i, hi, hkeys, _⟩ := keys_to_properties_ok hD
    have hvar := keyPos_some_getElem hi
    have hnm : var ∉ D.keys.names := by
      rw [hkeys]
      exact nodup_not_mem_eraseIdx hnd hvar
    exact ⟨hnm, keys_to_properties_not_mem hnm, keys_to_samples_not_mem hnm⟩
  · intro D hD
    obtain ⟨i, hi, hkeys, _⟩ := keys_to_samples_ok hD
    have hvar := keyPos_some_getElem hi
    have hnm : var ∉ D.keys.names := by
      rw [hkeys]
      exact nodup_not_mem_eraseIdx hnd hvar
    exact ⟨hnm, keys_to_samples_not_mem hnm, keys_to_properties_not_mem hnm⟩
  · intro err herr
    unfold applyKeysToProperties
    rw [herr]
  · intro err herr
    unfold applyKeysToSamples
    rw [herr]

/-- Witness for C6: a variable absent from the keys fails with
`UnknownVariable`, and the in-place application leaves the collection
untouched. -/
theorem C6_witness :
    keys_to_properties exC1 "q" false = .error .UnknownVariable ∧
    applyKeysToProperties exC1 "q" false = exC1 := by
  have h := C6_unknown_variable_and_atomicity exC1 "q" false false (by decide)
  have h1 := (h.1 (by decide)).1
  exact ⟨h1, h.2.2.2.1 .UnknownVariable h1⟩

/-- Claim C8: block selection with a mapping from a subset of key variable
names to values returns every block whose key entry matches on all
constrained variables; when the constraints cover every key variable and
exactly one entry matches, it returns that single block; when zero entries
match under a fully-specified key it fails with `NotFound`; and when more
than one entry matches a partial constraint it returns the matching set as
a collection-like view rather than silently collapsing to one block. -/
theorem C8_select_block (C : TensorMap) (cs : List (String × Int))
    (hknown : ∀ c ∈ cs, c.1 ∈ C.keys.names) :
    (∀ p, p ∈ matchingPairs C cs ↔
      p ∈ C.keys.entries.zip C.blocks ∧ matchesConstraints C.keys.names p.1 cs) ∧
    (∀ sel, selectBlock C cs = .ok sel →
      selectionBlocks sel = (matchingPairs C cs).map (fun p => p.2)) ∧
    (coversAllKeys C cs → matchingPairs C cs = [] →
      selectBlock C cs = .error .NotFound) ∧
    (∀ p, coversAllKeys C cs → matchingPairs C cs = [p] →
      selectBlock C cs = .ok (.single p.2)) ∧
    (¬ coversAllKeys C cs →
      selectBlock C cs = .ok (.view (matchingPairs C cs))) := by
  refine ⟨?_, ?_, ?_, ?_, ?_⟩
  · intro p
    unfold matchingPairs
    rw [List.mem_filter]
    exact and_congr_right (fun _ => decide_eq_true_iff)
  · intro sel hsel
    unfold selectBlock at hsel
    rw [dif_pos hknown] at hsel
    by_cases hfull : coversAllKeys C cs
    · rw [dif_pos hfull] at hsel
      cases hm : matchingPairs C cs with
      | nil => rw [hm] at hsel; cases hsel
      | cons p rest =>
        cases rest with
        | nil =>
          rw [hm] at hsel
          cases hsel
          rfl
        | cons q rest2 =>
          rw [hm] at hsel
          cases hsel
          rfl
    · rw [dif_neg hfull] at hsel
      cases hsel
      rfl
  · intro hfull hm
    unfold selectBlock
    rw [dif_pos hknown, dif_pos hfull, hm]
  · intro p hfull hm
    unfold selectBlock
    rw [dif_pos hknown, dif_pos hfull, hm]
  · intro hfull
    unfold selectBlock
    rw [dif_pos hknown, dif_neg hfull]

/-- A collection with key variables `l` and `center`: three blocks share
`l = 3` and one has `l = 4`. -/
def exC8 : TensorMap :=
  ⟨⟨["l", "center"], [[3, 1], [3, 2], [3, 3], [4, 1]]⟩,
    [exBlock 1 [10], exBlock 2 [10], exBlock 3 [10], exBlock 4 [10]]⟩

/-- Witness for C8: a partial constraint `l = 3` yields the matching
3-element view, and a fully-specified constraint with no match yields
`NotFound`. -/
theorem C8_witness :
    selectBlock exC8 [("l", 3)] = .ok (.view (matchingPairs exC8 [("l", 3)])) ∧
    selectBlock exC8 [("l", 3), ("center", 9)] = .error .NotFound := by
  constructor
  · exact (C8_select_block exC8 [("l", 3)] (by decide)).2.2.2.2 (by decide)
  · exact (C8_select_block exC8 [("l", 3), ("center", 9)]
      (by decide)).2.2.1 (by decide) (by decide)

instance (l : Labels) : Decidable l.wf := by
  unfold Labels.wf
  infer_instance

instance (v : Data3) (nS nC nP : Nat) : Decidable (dataWf v nS nC nP) := by
  unfold dataWf
  infer_instance

instance (n : Nat) (e : List Int) : Decidable (gradRefOk n e) := by
  unfold gradRefOk
  infer_instance

instance (g : Gradient) (ownerRows nP : Nat) : Decidable (g.wf ownerRows nP) := by
  unfold Gradient.wf
  infer_instance

instance (b : TensorBlock) : Decidable b.wf := by
  unfold TensorBlock.wf
  infer_instance

instance (C : TensorMap) : Decidable C.wf := by
  unfold TensorMap.wf
  infer_instance

theorem sum_map_const {l : List α} {f : α → Nat} {k : Nat}
    (h : ∀ a ∈ l, f a = k) : (l.map f).sum = l.length * k := by
  induction l with
  | nil => simp
  | cons a t ih =>
    simp only [List.map_cons, List.sum_cons, List.length_cons]
    rw [h a (List.mem_cons_self _ _), ih (fun b hb => h b (List.mem_cons_of_mem _ hb))]
    ring

theorem loadLabels_saveLabels {l : Labels}
    (h : ∀ e ∈ l.entries, e.length = l.names.length) :
    loadLabels (saveLabels l) = l := by
  unfold loadLabels saveLabels
  cases l with
  | mk names entries =>
    dsimp only
    rw [unflatten_flatten entries names.length h]

theorem unflattenData_flattenData {v : Data3} {nS nC nP : Nat}
    (h : dataWf v nS nC nP) : unflattenData nS nC nP (flattenData v) = v := by
  obtain ⟨hlen, hrows⟩ := h
  unfold unflattenData flattenData
  have hcells : ∀ cell ∈ v.flatten, cell.length = nP := by
    intro cell hcell
    obtain ⟨r, hr, hcellr⟩ := List.mem_flatten.mp hcell
    exact (hrows r hr).2 cell hcellr
  have hflen : v.flatten.length = nS * nC := by
    rw [List.length_flatten, sum_map_const (fun r hr => (hrows r hr).1), hlen]
  have h1 : unflatten (nS * nC) nP v.flatten.flatten = v.flatten := by
    rw [← hflen]
    exact unflatten_flatten v.flatten nP hcells
  rw [h1, ← hlen]
  exact unflatten_flatten v nC (fun r hr => (hrows r hr).1)

theorem loadGradient_saveGradient {g : Gradient} {ownerRows nP : Nat}
    (h : g.wf ownerRows nP) : loadGradient nP (saveGradient g) = g := by
  obtain ⟨hsw, hcw, hdw, _, _⟩ := h
  have hs : loadLabels (saveLabels g.samples) = g.samples :=
    loadLabels_saveLabels hsw.2.2
  have hc : (g.components.map saveLabels).map loadLabels = g.components := by
    rw [List.map_map]
    exact List.map_congr_left (fun c hcm => loadLabels_saveLabels (hcw c hcm).2.2)
      |>.trans (List.map_id _)
  unfold loadGradient saveGradient
  dsimp only
  rw [hs, hc, unflattenData_flattenData hdw]

theorem loadBlock_saveBlock {b : TensorBlock} (h : b.wf) :
    loadBlock (saveBlock b) = b := by
  obtain ⟨hsw, hcw, hpw, hdw, hgw⟩ := h
  have hs : loadLabels (saveLabels b.samples) = b.samples :=
    loadLabels_saveLabels hsw.2.2
  have hc : (b.components.map saveLabels).map loadLabels = b.components := by
    rw [List.map_map]
    exact List.map_congr_left (fun c hcm => loadLabels_saveLabels (hcw c hcm).2.2)
      |>.trans (List.map_id _)
  have hp : loadLabels (saveLabels b.properties) = b.properties :=
    loadLabels_saveLabels hpw.2.2
  unfold loadBlock saveBlock
  dsimp only
  rw [hs, hc, hp, unflattenData_flattenData hdw]
  have hg : b.gradients.map
      (fun pg => (pg.1, loadGradient b.properties.entries.length (saveGradient pg.2)))
        = b.gradients := by
    refine (List.map_congr_left ?_).trans (List.map_id _)
    intro pg hpg
    rw [loadGradient_saveGradient (hgw pg hpg)]
    rfl
  rw [List.map_map]
  have : ((fun pg : String × SavedGradient =>
        (pg.1, loadGradient b.properties.entries.length pg.2)) ∘
      fun pg : String × Gradient => (pg.1, saveGradient pg.2)) =
      fun pg : String × Gradient =>
        (pg.1, loadGradient b.properties.entries.length (saveGradient pg.2)) := rfl
  rw [this, hg]

/-- Claim C9: for every well-formed collection, `load (save C) = C`: the
reloaded collection has identical keys, identical block count, and for
every block identical sample, property and component label sets and
bit-identical value arrays, including gradients. -/
theorem C9_save_load_roundtrip (C : TensorMap) (hwf : C.wf) :
    load (save C) = C := by
  obtain ⟨hkw, _, hbw⟩ := hwf
  unfold load save
  dsimp only
  rw [loadLabels_saveLabels hkw.2.2, List.map_map]
  have : (loadBlock ∘ saveBlock) = fun b => loadBlock (saveBlock b) := rfl
  rw [this]
  exact congrArg (TensorMap.mk C.keys)
    ((List.map_congr_left (fun b hb => loadBlock_saveBlock (hbw b hb))).trans
      (List.map_id _))

/-- Witness for C9 at a concrete well-formed collection. -/
theorem C9_witness : load (save exC1) = exC1 :=
  C9_save_load_roundtrip exC1 (by decide)

/-- Claim C10: the `TensorMap` built by `extract_energy_forces` contains
exactly one block, one sample row per structure, and every entry of the
attached `positions` gradient's sample labels has a `sample` column value
that is a valid row index into that block's sample label set, the gradient
data being the negated per-atom forces reshaped to one property column. -/
theorem C10_energy_forces_invariant (structures : List Structure) :
    (extract_energy_forces structures).blocks.length = 1 ∧
    ∀ b ∈ (extract_energy_forces structures).blocks,
      b.samples.entries.length = structures.length ∧
      b.values = structures.map (fun st => [[st.energy]]) ∧
      ∀ pg ∈ b.gradients,
        pg.1 = "positions" ∧
        pg.2.data = structures.flatMap
          (fun st => st.forces.map (fun f => f.map (fun v => [-v]))) ∧
        ∀ e ∈ pg.2.samples.entries,
          ∃ si ai : Nat, e = [Int.ofNat si, Int.ofNat si, Int.ofNat ai] ∧
            si < b.samples.entries.length := by
  refine ⟨rfl, ?_⟩
  intro b hb
  rcases List.mem_cons.mp hb with rfl | hb2
  · refine ⟨by rw [List.length_map, List.length_range], rfl, ?_⟩
    intro pg hpg
    rcases List.mem_cons.mp hpg with rfl | hpg2
    · refine ⟨rfl, rfl, ?_⟩
      intro e he
      dsimp only [extract_energy_forces] at he
      obtain ⟨sist, hsist, hemap⟩ := List.mem_flatMap.mp he
      obtain ⟨si, st⟩ := sist
      obtain ⟨ai, _, hee⟩ := List.mem_map.mp hemap
      refine ⟨si, ai, hee.symm, ?_⟩
      have hzip : (si, st) ∈ (List.range structures.length).zip structures := by
        rw [← List.enum_eq_zip_range]
        exact hsist
      have hsi := (List.of_mem_zip hzip).1
      rw [List.length_map, List.length_range]
      exact List.mem_range.mp hsi
    · cases hpg2
  · cases hb2

/-- Two concrete structures with energies, one and two atoms. -/
def exStructs : List Structure :=
  [⟨5, [[1, 2, 3]]⟩, ⟨7, [[4, 5, 6], [7, 8, 9]]⟩]

/-- Witness for C10 at two concrete structures. -/
theorem C10_witness :
    (extract_energy_forces exStructs).blocks.length = 1 ∧
    (extract_energy_forces exStructs).blocks.map
      (fun b => b.samples.entries.length) = [exStructs.length] := by
  have h := C10_energy_forces_invariant exStructs
  refine ⟨h.1, ?_⟩
  cases hbs : (extract_energy_forces exStructs).blocks with
  | nil =>
    rw [hbs] at h
    cases h.1
  | cons b rest =>
    cases rest with
    | nil =>
      have hlen := (h.2 b (by rw [hbs]; exact List.mem_cons_self _ _)).1
      rw [List.map_cons, hlen]
      rfl
    | cons b2 rest2 =>
      rw [hbs] at h
      cases h.1

/-! ## Counting lemmas for conservation properties -/

/-- Total number of sample rows summed over all blocks. -/
def totalSampleRows (C : TensorMap) : Nat :=
  (C.blocks.map (fun b => b.samples.entries.length)).sum

/-- Total number of property columns summed over all blocks. -/
def totalProperties (C : TensorMap) : Nat :=
  (C.blocks.map (fun b => b.properties.entries.length)).sum

/-- Number of scalar values held in a block's value array. -/
def volume (b : TensorBlock) : Nat :=
  (b.values.map (fun r => (r.map List.length).sum)).sum

/-- Total number of scalar values held in a collection. -/
def totalVolume (C : TensorMap) : Nat :=
  (C.blocks.map volume).sum

theorem sum_map_flatMap (l : List α) (f : α → List β) (g : β → Nat) :
    ((l.flatMap f).map g).sum = (l.map (fun a => ((f a).map g).sum)).sum := by
  induction l with
  | nil => rfl
  | cons a t ih =>
    rw [List.flatMap_cons, List.map_append, List.sum_append, ih, List.map_cons,
      List.sum_cons]

theorem sum_map_ite_eq [DecidableEq β] {gs : List β} (hnd : gs.Nodup) {b : β}
    (hb : b ∈ gs) (c : Nat) :
    (gs.map (fun g => if b = g then c else 0)).sum = c := by
  induction gs with
  | nil => cases hb
  | cons g gs2 ih =>
    rw [List.map_cons, List.sum_cons]
    by_cases hbg : b = g
    · subst hbg
      rw [if_pos rfl]
      have hz : (gs2.map (fun g => if b = g then c else 0)).sum = 0 := by
        apply List.sum_eq_zero
        intro x hx
        obtain ⟨g2, hg2, hgx⟩ := List.mem_map.mp hx
        have : b ≠ g2 := fun hbg2 => (List.nodup_cons.mp hnd).1 (hbg2 ▸ hg2)
        rw [if_neg this] at hgx
        exact hgx.symm
      rw [hz]
      rfl
    · rw [if_neg hbg, Nat.zero_add]
      have hb2 : b ∈ gs2 := by
        rcases List.mem_cons.mp hb with rfl | hb2
        · exact absurd rfl hbg
        · exact hb2
      exact ih (List.nodup_cons.mp hnd).2 hb2

theorem sum_fiber_cover [DecidableEq β] {gs : List β} (hnd : gs.Nodup)
    (f : α → β) (φ : α → Nat) :
    ∀ {l : List α}, (∀ a ∈ l, f a ∈ gs) →
      (gs.map (fun g =>
        ((l.filter (fun a => decide (f a = g))).map φ).sum)).sum = (l.map φ).sum := by
  intro l
  induction l with
  | nil =>
    intro _
    simp
  | cons a t ih =>
    intro hall
    have hsplit : ∀ g : β,
        (((a :: t).filter (fun x => decide (f x = g))).map φ).sum =
          (if f a = g then φ a else 0) +
            ((t.filter (fun x => decide (f x = g))).map φ).sum := by
      intro g
      rw [List.filter_cons]
      by_cases hfa : f a = g
      · rw [if_pos (decide_eq_true hfa), if_pos hfa, List.map_cons, List.sum_cons]
      · rw [if_neg (by simpa using hfa), if_neg hfa, Nat.zero_add]
    calc (gs.map (fun g =>
            (((a :: t).filter (fun x => decide (f x = g))).map φ).sum)).sum
        = (gs.map (fun g => (if f a = g then φ a else 0) +
            ((t.filter (fun x => decide (f x = g))).map φ).sum)).sum := by
          exact congrArg List.sum (List.map_congr_left (fun g _ => hsplit g))
      _ = (gs.map (fun g => if f a = g then φ a else 0)).sum +
            (gs.map (fun g =>
              ((t.filter (fun x => decide (f x = g))).map φ).sum)).sum := by
          rw [← List.sum_map_add]
      _ = φ a + (t.map φ).sum := by
          rw [sum_map_ite_eq hnd (hall a (List.mem_cons_self _ _)),
            ih (fun x hx => hall x (List.mem_cons_of_mem _ hx))]
      _ = ((a :: t).map φ).sum := by rw [List.map_cons, List.sum_cons]

theorem forall₂_sum_eq {R : α → β → Prop} {φ : β → Nat} {ψ : α → Nat} :
    ∀ {l : List α} {ys : List β}, List.Forall₂ R l ys →
      (∀ a b, R a b → φ b = ψ a) → (ys.map φ).sum = (l.map ψ).sum := by
  intro l ys h
  induction h with
  | nil => intro _; rfl
  | cons hab _ ih =>
    intro hcong
    rw [List.map_cons, List.sum_cons, List.map_cons, List.sum_cons,
      hcong _ _ hab, ih hcong]

theorem sortBlockSamples_samples_length (b : TensorBlock) :
    (sortBlockSamples b).samples.entries.length =
      min b.samples.entries.length b.values.length := by
  unfold sortBlockSamples
  dsimp only
  rw [List.length_map, (List.perm_insertionSort _ _).length_eq, List.length_zip]

theorem sortBlockSamples_properties (b : TensorBlock) :
    (sortBlockSamples b).properties = b.properties := rfl

theorem volume_sortBlockSamples {b : TensorBlock}
    (h : b.samples.entries.length = b.values.length) :
    volume (sortBlockSamples b) = volume b := by
  unfold volume sortBlockSamples
  dsimp only
  have hsnd : (b.samples.entries.zip b.values).map Prod.snd = b.values :=
    List.map_snd_zip _ _ (le_of_eq h.symm)
  have hperm := (List.perm_insertionSort (fun p q => lexLe p.1 q.1 = true)
    (b.samples.entries.zip b.values)).map Prod.snd
  rw [hsnd] at hperm
  exact (hperm.map _).sum_eq

theorem volume_mergedSampBlock (var : String) (cons : List (Int × TensorBlock))
    (b0 : TensorBlock) :
    volume (mergedSampBlock var cons b0) =
      (cons.map (fun xb => volume xb.2)).sum := by
  unfold volume mergedSampBlock sortedCons
  dsimp only
  rw [sum_map_flatMap]
  exact ((List.perm_insertionSort _ _).map _).sum_eq

theorem mergedSampBlock_lengths (var : String)
    (cons : List (Int × TensorBlock)) (b0 : TensorBlock)
    (h : ∀ xb ∈ cons, xb.2.values.length = xb.2.samples.entries.length) :
    (mergedSampBlock var cons b0).samples.entries.length =
      (mergedSampBlock var cons b0).values.length := by
  unfold mergedSampBlock
  dsimp only
  rw [List.length_flatMap, List.length_flatMap]
  refine congrArg List.sum (List.map_congr_left ?_)
  intro xb hxb
  have hmem : xb ∈ cons := ((List.perm_insertionSort _ _).mem_iff).mp hxb
  simp only [Function.comp_apply, List.length_map]
  exact (h xb hmem).symm

theorem volume_mergeGroupSamples_ok {var : String}
    {cons : List (Int × TensorBlock)} {fl : Bool} {b2 : TensorBlock}
    (h : mergeGroupSamples var cons fl = .ok b2)
    (hlen : ∀ xb ∈ cons, xb.2.values.length = xb.2.samples.entries.length) :
    volume b2 = (cons.map (fun xb => volume xb.2)).sum := by
  obtain ⟨x0, b0, rest, hcons, _, hb⟩ := mergeGroupSamples_ok h
  subst hb
  cases fl with
  | false =>
    rw [if_neg (by simp)]
    exact volume_mergedSampBlock var cons b0
  | true =>
    rw [if_pos rfl,
      volume_sortBlockSamples (mergedSampBlock_lengths var cons b0 hlen)]
    exact volume_mergedSampBlock var cons b0

/-- A collection with two blocks sharing identical samples and properties,
under a single key variable: merging it collapses two blocks into one. -/
def exC4 : TensorMap :=
  ⟨⟨["k"], [[0], [1]]⟩, [exBlock 1 [5], exBlock 2 [5]]⟩

/-- Counterexample to claim C4 as stated: `keys_to_properties` shrinks the
total number of sample rows from 2 to 1 (two one-row blocks merge into one
one-row block), and `keys_to_samples` shrinks the total property count from
2 to 1, on the same concrete collection. -/
theorem C4_counterexample :
    totalSampleRows exC4 = 2 ∧
    (keys_to_properties exC4 "k" false).map totalSampleRows = .ok 1 ∧
    totalProperties exC4 = 2 ∧
    (keys_to_samples exC4 "k" false).map totalProperties = .ok 1 := by
  refine ⟨rfl, rfl, rfl, rfl⟩

/-- Claim C4 (amended): on success, `keys_to_properties` leaves each merged
block's sample count equal to its constituents' shared sample count (the
per-block sample counts are never changed, though the total across blocks
shrinks as blocks merge), and `keys_to_samples` leaves each merged block's
property label set equal to its constituents' shared property label set
(per-block property counts are never changed) and conserves the total value
volume. -/
theorem C4_per_block_conservation (C : TensorMap) (var : String) (fl : Bool)
    (hwf : C.wf) :
    (∀ D, keys_to_properties C var fl = .ok D →
      ∀ b2 ∈ D.blocks, ∃ i, keyPos C var = some i ∧
        ∃ g ∈ groupsOf C i, ∃ x0 b0 rest,
          constituents C i g = (x0, b0) :: rest ∧
          b2.samples.entries.length = b0.samples.entries.length ∧
          ∀ xb ∈ constituents C i g,
            xb.2.samples.entries.length = b0.samples.entries.length) ∧
    (∀ D, keys_to_samples C var fl = .ok D →
      (∀ b2 ∈ D.blocks, ∃ i, keyPos C var = some i ∧
        ∃ g ∈ groupsOf C i, ∃ x0 b0 rest,
          constituents C i g = (x0, b0) :: rest ∧
          b2.properties = b0.properties ∧
          ∀ xb ∈ constituents C i g, xb.2.properties = b0.properties) ∧
      totalVolume D = totalVolume C) := by
  have hblocklen : C.keys.entries.length = C.blocks.length := hwf.2.1
  constructor
  · intro D hD b2 hb2
    obtain ⟨i, hi, _, hblocks⟩ := keys_to_properties_ok hD
    obtain ⟨g, hg, hok⟩ := exceptMapM_mem_ok hblocks hb2
    obtain ⟨x0, b0, rest, hcons, hchecks, hb⟩ := mergeGroupProperties_ok hok
    refine ⟨i, hi, g, hg, x0, b0, rest, hcons, ?_, ?_⟩
    · subst hb
      cases fl with
      | false =>
        rw [if_neg (by simp)]
        rfl
      | true =>
        rw [if_pos rfl, sortBlockSamples_samples_length]
        unfold mergedPropBlock
        dsimp only
        rw [List.length_map, List.length_range, Nat.min_self]
    · intro xb hxb
      rw [(hchecks xb hxb).1]
  · intro D hD
    obtain ⟨i, hi, _, hblocks⟩ := keys_to_samples_ok hD
    constructor
    · intro b2 hb2
      obtain ⟨g, hg, hok⟩ := exceptMapM_mem_ok hblocks hb2
      obtain ⟨x0, b0, rest, hcons, hchecks, hb⟩ := mergeGroupSamples_ok hok
      refine ⟨i, hi, g, hg, x0, b0, rest, hcons, ?_, ?_⟩
      · subst hb
        cases fl with
        | false =>
          rw [if_neg (by simp)]
          rfl
        | true =>
          rw [if_pos rfl, sortBlockSamples_properties]
          rfl
      · intro xb hxb
        exact (hchecks xb hxb).2.2.1
    · have hvols : ∀ xb : Int × TensorBlock, ∀ g, xb ∈ constituents C i g →
          xb.2.values.length = xb.2.samples.entries.length := by
        intro xb g hxb
        obtain ⟨p, hp, _, hxbp⟩ := mem_constituents.mp hxb
        have hbmem : p.2 ∈ C.blocks := by
          obtain ⟨p1, p2⟩ := p
          exact (List.of_mem_zip hp).2
        have hbwf := hwf.2.2 p.2 hbmem
        rw [hxbp]
        exact hbwf.2.2.2.1.1
      have hstep1 : (D.blocks.map volume).sum =
          ((groupsOf C i).map (fun g =>
            ((constituents C i g).map (fun xb => volume xb.2)).sum)).sum := by
        refine forall₂_sum_eq (exceptMapM_ok_iff.mp hblocks) ?_
        intro g b2 hR
        exact volume_mergeGroupSamples_ok hR (fun xb hxb => hvols xb g hxb)
      have hcover : ∀ p ∈ C.keys.entries.zip C.blocks,
          (fun q : List Int × TensorBlock => q.1.eraseIdx i) p ∈ groupsOf C i := by
        intro p hp
        have hp1 : p.1 ∈ C.keys.entries := by
          obtain ⟨p1, p2⟩ := p
          exact (List.of_mem_zip hp).1
        exact mem_groupsOf.mpr ⟨p.1, hp1, rfl⟩
      have hstep2 : ((groupsOf C i).map (fun g =>
            ((constituents C i g).map (fun xb => volume xb.2)).sum)).sum =
          ((C.keys.entries.zip C.blocks).map
            (fun p => volume p.2)).sum := by
        have hrw : ∀ g, ((constituents C i g).map (fun xb => volume xb.2)).sum =
            (((C.keys.entries.zip C.blocks).filter
              (fun p => decide ((fun q : List Int × TensorBlock =>
                q.1.eraseIdx i) p = g))).map (fun p => volume p.2)).sum := by
          intro g
          unfold constituents
          rw [List.map_map]
          rfl
        calc ((groupsOf C i).map (fun g =>
              ((constituents C i g).map (fun xb => volume xb.2)).sum)).sum
            = ((groupsOf C i).map (fun g =>
              (((C.keys.entries.zip C.blocks).filter
                (fun p => decide ((fun q : List Int × TensorBlock =>
                  q.1.eraseIdx i) p = g))).map (fun p => volume p.2)).sum)).sum := by
              exact congrArg List.sum (List.map_congr_left (fun g _ => hrw g))
          _ = ((C.keys.entries.zip C.blocks).map (fun p => volume p.2)).sum :=
              sum_fiber_cover (groupsOf_nodup C i) _ _ hcover
      have hstep3 : ((C.keys.entries.zip C.blocks).map
            (fun p => volume p.2)).sum = (C.blocks.map volume).sum := by
        have : (C.keys.entries.zip C.blocks).map (fun p => volume p.2) =
            ((C.keys.entries.zip C.blocks).map Prod.snd).map volume := by
          rw [List.map_map]
          rfl
        rw [this, List.map_snd_zip _ _ (le_of_eq hblocklen.symm)]
      unfold totalVolume
      rw [hstep1, hstep2, hstep3]

/-- Witness for the amended C4 at a concrete collection. -/
theorem C4_witness :
    totalVolume (applyKeysToSamples exC4 "k" false) = totalVolume exC4 := by
  have h := (C4_per_block_conservation exC4 "k" false (by decide)).2
    (applyKeysToSamples exC4 "k" false) (by rfl)
  exact h.2

/-! ## Gradient reference resolution through a sample merge -/

theorem gradConcat_resolve (n : Nat) :
    ∀ (chs : List (Int × TensorBlock)) (pre : List (List Int)),
      (∀ xb ∈ chs, ∀ e0 ∈ gradEntriesAt xb.2 n,
        gradRefOk xb.2.samples.entries.length e0) →
      ∀ e ∈ gradConcat pre.length
          (chs.map (fun xb => (xb.2.samples.entries.length, gradEntriesAt xb.2 n))),
        ∃ xb ∈ chs, ∃ e0 ∈ gradEntriesAt xb.2 n, ∃ row k tl,
          e = k :: tl ∧ 0 ≤ k ∧ tl = e0.drop 1 ∧
          xb.2.samples.entries[(e0.getD 0 0).toNat]? = some row ∧
          (pre ++ chs.flatMap
            (fun xb => xb.2.samples.entries.map (fun r => xb.1 :: r)))[k.toNat]? =
            some (xb.1 :: row) := by
  intro chs
  induction chs with
  | nil =>
    intro pre _ e he
    cases he
  | cons xb rest ih =>
    intro pre hwfs e he
    rw [List.map_cons] at he
    unfold gradConcat at he
    rcases List.mem_append.mp he with he1 | he2
    · obtain ⟨e0, he0, hee⟩ := List.mem_map.mp he1
      obtain ⟨hne, h0, hlt⟩ := hwfs xb (List.mem_cons_self _ _) e0 he0
      cases e0 with
      | nil => exact absurd rfl hne
      | cons j tl =>
        dsimp only at hee
        have h0j : 0 ≤ j := h0
        have hltj : j < (xb.2.samples.entries.length : Int) := hlt
        have hjlt : j.toNat < xb.2.samples.entries.length := by omega
        refine ⟨xb, List.mem_cons_self _ _, j :: tl, he0,
          xb.2.samples.entries.get ⟨j.toNat, hjlt⟩, j + (pre.length : Int), tl,
          hee.symm, by omega, rfl, ?_, ?_⟩
        · show xb.2.samples.entries[((j :: tl).getD 0 0).toNat]? = _
          have : ((j :: tl).getD 0 0) = j := rfl
          rw [this, List.getElem?_eq_getElem hjlt]
          rfl
        · have hidx : (j + (pre.length : Int)).toNat = pre.length + j.toNat := by
            omega
          rw [hidx, List.flatMap_cons, ← List.append_assoc]
          have hlen1 : pre.length + j.toNat <
              (pre ++ xb.2.samples.entries.map (fun r => xb.1 :: r)).length := by
            rw [List.length_append, List.length_map]
            omega
          rw [List.getElem?_append_left hlen1,
            List.getElem?_append_right (Nat.le_add_right _ _)]
          have hsub : pre.length + j.toNat - pre.length = j.toNat := by
            omega
          rw [hsub, List.getElem?_map, List.getElem?_eq_getElem hjlt]
          rfl
    · have hpre2 : pre.length + xb.2.samples.entries.length =
          (pre ++ xb.2.samples.entries.map (fun r => xb.1 :: r)).length := by
        rw [List.length_append, List.length_map]
      rw [hpre2] at he2
      obtain ⟨xb2, hxb2, e0, he0, row, k, tl, hke, hk0, htl, hrow, hres⟩ :=
        ih (pre ++ xb.2.samples.entries.map (fun r => xb.1 :: r))
          (fun y hy => hwfs y (List.mem_cons_of_mem _ hy)) e he2
      refine ⟨xb2, List.mem_cons_of_mem _ hxb2, e0, he0, row, k, tl, hke, hk0,
        htl, hrow, ?_⟩
      rw [List.flatMap_cons, ← List.append_assoc]
      exact hres

theorem sortBlockSamples_resolves {b : TensorBlock}
    (hlen : b.samples.entries.length = b.values.length)
    {e : List Int} {k : Int} {tl : List Int} (hke : e = k :: tl)
    {entry : List Int} (hres : b.samples.entries[k.toNat]? = some entry) :
    ∃ k2 : Nat,
      remapEntry b.samples.entries (sortBlockSamples b).samples.entries e =
        Int.ofNat k2 :: tl ∧
      (sortBlockSamples b).samples.entries[k2]? = some entry := by
  subst hke
  have hgetD : b.samples.entries.getD k.toNat [] = entry := by
    rw [List.getD_eq_getElem?_getD, hres]
    rfl
  have hperm : (sortBlockSamples b).samples.entries.Perm b.samples.entries := by
    show ((b.samples.entries.zip b.values).insertionSort
      (fun p q => lexLe p.1 q.1 = true)).map Prod.fst |>.Perm b.samples.entries
    have h1 := (List.perm_insertionSort (fun p q => lexLe p.1 q.1 = true)
      (b.samples.entries.zip b.values)).map Prod.fst
    rw [List.map_fst_zip _ _ (le_of_eq hlen)] at h1
    exact h1
  have hmem : entry ∈ (sortBlockSamples b).samples.entries :=
    hperm.mem_iff.mpr (List.getElem?_mem hres)
  refine ⟨posOf (sortBlockSamples b).samples.entries entry, ?_,
    posOf_getElem? hmem⟩
  show (Int.ofNat (posOf (sortBlockSamples b).samples.entries
      (b.samples.entries.getD k.toNat []))) :: tl = _
  rw [hgetD]

/-- Claim C5: after `keys_to_samples` with the canonical-sort flag enabled,
every gradient sample entry of every merged block, when its `sample` column
is used as a row index into the merged block's new sample label set,
resolves to a sample entry whose non-appended variables match the original
sample row that gradient entry was computed against: the gradient `sample`
references are co-reordered consistently with the sample re-sort. -/
theorem C5_gradient_references_stay_consistent (C : TensorMap) (var : String)
    (i : Nat) (hwf : C.wf) (hi : keyPos C var = some i) (D : TensorMap)
    (h : keys_to_samples C var true = .ok D) :
    ∀ b2 ∈ D.blocks, ∀ pg2 ∈ b2.gradients, ∀ e2 ∈ pg2.2.samples.entries,
      ∃ g ∈ groupsOf C i, ∃ x b, (x, b) ∈ constituents C i g ∧
        ∃ g0, (pg2.1, g0) ∈ b.gradients ∧
        ∃ e0 ∈ g0.samples.entries, ∃ row,
          e2.drop 1 = e0.drop 1 ∧
          b.samples.entries[(e0.getD 0 0).toNat]? = some row ∧
          b2.samples.entries[(e2.getD 0 0).toNat]? = some (x :: row) := by
  obtain ⟨i2, hi2, _, hblocks⟩ := keys_to_samples_ok h
  rw [hi] at hi2
  injection hi2 with hii
  subst hii
  intro b2 hb2 pg2 hpg2 e2 he2
  obtain ⟨g, hg, hok⟩ := exceptMapM_mem_ok hblocks hb2
  obtain ⟨x0, b0, rest, hcons, hchecks, hb⟩ := mergeGroupSamples_ok hok
  rw [if_pos rfl] at hb
  subst hb
  have hbwf : ∀ xb ∈ constituents C i g, xb.2.wf := by
    intro xb hxb
    obtain ⟨p, hp, _, hxbp⟩ := mem_constituents.mp hxb
    have hpb : p.2 ∈ C.blocks := by
      obtain ⟨p1, p2⟩ := p
      exact (List.of_mem_zip hp).2
    rw [hxbp]
    exact hwf.2.2 p.2 hpb
  have hMlen :
      (mergedSampBlock var (constituents C i g) b0).samples.entries.length =
        (mergedSampBlock var (constituents C i g) b0).values.length :=
    mergedSampBlock_lengths var _ b0
      (fun xb hxb => ((hbwf xb hxb).2.2.2.1).1)
  obtain ⟨pgM, hpgM, hpg2eq⟩ := List.mem_map.mp hpg2
  subst hpg2eq
  dsimp only at he2
  obtain ⟨e, he, he2eq⟩ := List.mem_map.mp he2
  obtain ⟨n, hn, hpgMn⟩ := List.mem_filterMap.mp hpgM
  cases hb0n : b0.gradients[n]? with
  | none =>
    rw [hb0n] at hpgMn
    cases hpgMn
  | some pg =>
    rw [hb0n] at hpgMn
    injection hpgMn with hpgMn
    subst hpgMn
    dsimp only at he he2eq
    have hwfs : ∀ xb ∈ sortedCons (constituents C i g),
        ∀ e0 ∈ gradEntriesAt xb.2 n,
          gradRefOk xb.2.samples.entries.length e0 := by
      intro xb hxb e0 he0
      have hxbc : xb ∈ constituents C i g :=
        (List.perm_insertionSort _ _).mem_iff.mp hxb
      unfold gradEntriesAt at he0
      cases hxn : xb.2.gradients[n]? with
      | none =>
        rw [hxn] at he0
        cases he0
      | some pgx =>
        rw [hxn] at he0
        exact ((hbwf xb hxbc).2.2.2.2 pgx (List.getElem?_mem hxn)).2.2.2.2 e0 he0
    obtain ⟨xb, hxb, e0, he0, row, k, tl, hke, hk0, htl, hrow, hres⟩ :=
      gradConcat_resolve n (sortedCons (constituents C i g)) [] hwfs e he
    rw [List.nil_append] at hres
    have hxbc : xb ∈ constituents C i g :=
      (List.perm_insertionSort _ _).mem_iff.mp hxb
    obtain ⟨k2, hremap, hres2⟩ := sortBlockSamples_resolves hMlen hke hres
    have he2val : e2 = Int.ofNat k2 :: tl := he2eq.symm.trans hremap
    obtain ⟨x, b⟩ := xb
    unfold gradEntriesAt at he0
    cases hxn : b.gradients[n]? with
    | none =>
      rw [hxn] at he0
      cases he0
    | some pgx =>
      rw [hxn] at he0
      have hsig := (hchecks (x, b) hxbc).2.2.2
      have hname : pgx.1 = pg.1 := by
        have h1 : (gradSigS b)[n]? = (gradSigS b0)[n]? := by rw [hsig]
        unfold gradSigS at h1
        rw [List.getElem?_map, List.getElem?_map, hxn, hb0n] at h1
        injection h1 with h1
        have h2 : (pgx.1, pgx.2.samples.names, pgx.2.components) =
            (pg.1, pg.2.samples.names, pg.2.components) := h1
        injection h2 with ha _
      refine ⟨g, hg, x, b, hxbc, pgx.2, ?_, e0, he0, row, ?_, hrow, ?_⟩
      · show (pg.1, pgx.2) ∈ b.gradients
        rw [← hname]
        exact List.getElem?_mem hxn
      · rw [he2val]
        exact htl
      · rw [he2val]
        show (sortBlockSamples
            (mergedSampBlock var (constituents C i g) b0)).samples.entries[
              ((Int.ofNat k2 :: tl).getD 0 0).toNat]? = some (x :: row)
        have hgd : ((Int.ofNat k2 :: tl).getD 0 0).toNat = k2 := by
          show (Int.ofNat k2).toNat = k2
          rfl
        rw [hgd]
        exact hres2

instance : Inhabited Gradient :=
  ⟨⟨⟨[], []⟩, [], []⟩⟩

instance : Inhabited TensorBlock :=
  ⟨⟨⟨[], []⟩, [], ⟨[], []⟩, [], []⟩⟩

/-- A one-property block with constant value `v`, the given sample rows,
and a `positions` gradient with one entry per sample row. -/
def exGBlock (v : ℚ) (rows : List Int) : TensorBlock :=
  ⟨⟨["s"], rows.map (fun r => [r])⟩, [], ⟨["p"], [[0]]⟩,
    rows.map (fun _ => [[v]]),
    [("positions",
      ⟨⟨["sample", "atom"],
          (List.range rows.length).map (fun j => [Int.ofNat j, 9])⟩,
        [], (List.range rows.length).map (fun _ => [[v]])⟩)]⟩

/-- A collection of two gradient-bearing blocks under one key variable. -/
def exC5 : TensorMap :=
  ⟨⟨["k"], [[0], [1]]⟩, [exGBlock 1 [7, 8], exGBlock 2 [5]]⟩

/-- Witness for C5: in the concrete merged collection, the first gradient
sample entry of the first merged block resolves to an existing sample
row. -/
theorem C5_witness :
    ((((applyKeysToSamples exC5 "k" true).blocks.getD 0 default).samples.entries[
      (((((applyKeysToSamples exC5 "k" true).blocks.getD 0
        default).gradients.getD 0 default).2.samples.entries.getD 0 []).getD 0
          0).toNat]?).isSome) = true := by
  have hmain := C5_gradient_references_stay_consistent exC5 "k" 0 (by decide)
    (by rfl) (applyKeysToSamples exC5 "k" true) (by rfl)
  obtain ⟨g, _, x, b, _, g0, _, e0, _, row, _, _, hfin⟩ :=
    hmain ((applyKeysToSamples exC5 "k" true).blocks.getD 0 default)
      (by decide)
      ((((applyKeysToSamples exC5 "k" true).blocks.getD 0
        default).gradients.getD 0 default))
      (by decide)
      (((((applyKeysToSamples exC5 "k" true).blocks.getD 0
        default).gradients.getD 0 default)).2.samples.entries.getD 0 [])
      (by decide)
  rw [hfin]
  rfl

end Equistore
